import Mathlib

/-!
Shallow embedding of the `timeuuid` Go package (file `timeuuid.go`).

A UUID is stored as two unsigned 64-bit words.  Machine integers are
modelled as `Nat` (for `uint64`) and `Int` (for `int64`); conversions and
the places where Go arithmetic can wrap carry an explicit `% 2^64`.
Byte slices are `List Nat`, each entry one byte.  Fallible methods on
`*UUID` return the post-call receiver together with an optional error,
so that claims about mutation on failure are expressible.
-/

namespace Timeuuid

/-- Constant `IETFVariant = uint64(0x80) << 56` from the source. -/
def IETFVariant : Nat := 0x80 <<< 56

/-- Constant `VersionMask` from the source. -/
def VersionMask : Nat := 0x000000000000F000

/-- Constant `TimebasedVersion` from the source. -/
def TimebasedVersion : Nat := 0x0000000000001000

/-- Constant `FlipSignedBits` from the source. -/
def FlipSignedBits : Nat := 0x0080808080808080

/-- Constant `CounterMask` from the source. -/
def CounterMask : Nat := 0x3FFFFFFFFFFFFFFF

/-- Constant `MinCounterLeastBits` from the source. -/
def MinCounterLeastBits : Nat := 0x0080808080808080

/-- Constant `MaxCounterLeastBits` from the source. -/
def MaxCounterLeastBits : Nat := 0x7f7f7f7f7f7f7f7f

/-- Constant `Num100NanosSinceUUIDEpoch = int64(0x01b21dd213814000)`. -/
def Num100NanosSinceUUIDEpoch : Int := 0x01b21dd213814000

/-- Constant `One100NanosInMillis = int64(time.Millisecond) / 100 = 10000`. -/
def One100NanosInMillis : Int := 10000

/-- Go `uint64(x)` conversion of an `int64` value. -/
def toUint64 (x : Int) : Nat := (x % (2 ^ 64 : Int)).toNat

/-- Go `int64(x)` conversion of a `uint64` value. -/
def toInt64 (x : Nat) : Int := if x < 2 ^ 63 then (x : Int) else (x : Int) - 2 ^ 64

/-- Wrap-around of Go `int64` arithmetic. -/
def i64wrap (x : Int) : Int := (x + 2 ^ 63) % 2 ^ 64 - 2 ^ 63

/-- The `UUID` struct: two unsigned 64-bit words. -/
structure UUID where
  mostSigBits : Nat
  leastSigBits : Nat
deriving DecidableEq, Repr

/-- `var ZeroUUID = UUID{0, 0}`. -/
def ZeroUUID : UUID := ⟨0, 0⟩

/-- The `Version` enum from the source. -/
inductive Version where
  | BadVersion
  | TimebasedUUID
  | DCESecurityUUID
  | MD5NamebasedUUID
  | RandomlyGeneratedUUID
  | SHA1NamebasedUUID
  | UnknownVersion
deriving DecidableEq, Repr

/-- Numeric code of a `Version` enum value (its Go `iota` ordinal). -/
def Version.toNat : Version → Nat
  | .BadVersion => 0
  | .TimebasedUUID => 1
  | .DCESecurityUUID => 2
  | .MD5NamebasedUUID => 3
  | .RandomlyGeneratedUUID => 4
  | .SHA1NamebasedUUID => 5
  | .UnknownVersion => 6

/-- The Go conversion `Version(n)` for codes below `UnknownVersion`. -/
def versionOfNat : Nat → Version
  | 0 => .BadVersion
  | 1 => .TimebasedUUID
  | 2 => .DCESecurityUUID
  | 3 => .MD5NamebasedUUID
  | 4 => .RandomlyGeneratedUUID
  | 5 => .SHA1NamebasedUUID
  | _ => .UnknownVersion

/-- The `Variant` enum from the source. -/
inductive Variant where
  | NCSReserved
  | IETF
  | MicrosoftReserved
  | FutureReserved
  | UnknownVariant
deriving DecidableEq, Repr

/-- `func NewUUID(version Version) (uuid UUID)`: `mostSigBits = uint64(version) << 12`,
`leastSigBits = IETFVariant`.  The shift of a code at most 6 cannot wrap. -/
def NewUUID (version : Version) : UUID :=
  { mostSigBits := version.toNat <<< 12, leastSigBits := IETFVariant }

/-- `func (this UUID) Version() Version`. -/
def UUID.Version (u : UUID) : Version :=
  let version := (u.mostSigBits &&& VersionMask) >>> 12
  if version ≥ 6 then .UnknownVersion else versionOfNat version

/-- `func (this UUID) Variant() Variant`: ordered mask tests on the top byte of
the least-significant word. -/
def UUID.Variant (u : UUID) : Variant :=
  let variant := (u.leastSigBits >>> 56) &&& 0xFF
  if variant &&& 0x80 = 0 then .NCSReserved
  else if variant &&& 0xC0 = 0x80 then .IETF
  else if variant &&& 0xE0 = 0xC0 then .MicrosoftReserved
  else if variant &&& 0xE0 = 0xE0 then .FutureReserved
  else .UnknownVariant

/-- `func (this UUID) Time100NanosUnsigned() uint64`. -/
def UUID.Time100NanosUnsigned (u : UUID) : Nat :=
  let timeHigh := u.mostSigBits &&& 0x0FFF
  let timeMid := (u.mostSigBits >>> 16) &&& 0xFFFF
  let timeLow := (u.mostSigBits >>> 32) &&& 0xFFFFFFFF
  (timeHigh <<< 48) ||| (timeMid <<< 32) ||| timeLow

/-- `func (this UUID) Time100Nanos() int64`. -/
def UUID.Time100Nanos (u : UUID) : Int := toInt64 u.Time100NanosUnsigned

/-- `func (this*UUID) SetTime100NanosUnsigned(time100Nanos uint64)`: rebuilds the
most-significant word from `TimebasedVersion` and the three timestamp parts.
None of the shifts can exceed 64 bits, so no wrap-around occurs. -/
def UUID.SetTime100NanosUnsigned (u : UUID) (time100Nanos : Nat) : UUID :=
  let bits := TimebasedVersion
  let bits := bits ||| ((time100Nanos &&& 0xFFFFFFFF) <<< 32)
  let bits := bits ||| ((time100Nanos &&& 0xFFFF00000000) >>> 16)
  let bits := bits ||| ((time100Nanos &&& 0xFFF000000000000) >>> 48)
  { u with mostSigBits := bits }

/-- `func (this*UUID) SetTime100Nanos(time100Nanos int64)`. -/
def UUID.SetTime100Nanos (u : UUID) (time100Nanos : Int) : UUID :=
  u.SetTime100NanosUnsigned (toUint64 time100Nanos)

/-- `func (this UUID) UnixTimeMillis() int64`: int64 subtraction (wrapping) then
Go integer division, which truncates toward zero (`Int.tdiv`). -/
def UUID.UnixTimeMillis (u : UUID) : Int :=
  (i64wrap (u.Time100Nanos - Num100NanosSinceUUIDEpoch)).tdiv One100NanosInMillis

/-- `func (this*UUID) SetUnixTimeMillis(unixTimeMillis int64)`: int64 multiply and
add (wrapping), then `SetTime100Nanos`. -/
def UUID.SetUnixTimeMillis (u : UUID) (unixTimeMillis : Int) : UUID :=
  u.SetTime100Nanos (i64wrap (unixTimeMillis * One100NanosInMillis + Num100NanosSinceUUIDEpoch))

/-- `func (this* UUID) SetCounterUnsigned(counter uint64) uint64`: returns the
post-call receiver and the sanitized counter the Go method returns. -/
def UUID.SetCounterUnsigned (u : UUID) (counter : Nat) : UUID × Nat :=
  let sanitizedCounter := counter &&& CounterMask
  ({ u with leastSigBits := (sanitizedCounter ||| IETFVariant) ^^^ FlipSignedBits },
   sanitizedCounter)

/-- `func (this* UUID) SetCounter(counter int64) int64`. -/
def UUID.SetCounter (u : UUID) (counter : Int) : UUID × Int :=
  let r := u.SetCounterUnsigned (toUint64 counter)
  (r.1, toInt64 r.2)

/-- `func (this UUID) CounterUnsigned() uint64`. -/
def UUID.CounterUnsigned (u : UUID) : Nat :=
  (u.leastSigBits ^^^ FlipSignedBits) &&& CounterMask

/-- `func (this* UUID) SetMinCounter()`. -/
def UUID.SetMinCounter (u : UUID) : UUID :=
  { u with leastSigBits := MinCounterLeastBits ||| IETFVariant }

/-- `func (this* UUID) SetMaxCounter()`. -/
def UUID.SetMaxCounter (u : UUID) : UUID :=
  { u with leastSigBits := MaxCounterLeastBits ||| IETFVariant }

/-- `binary.BigEndian.PutUint16`: the two big-endian bytes of a 16-bit value. -/
def be16 (v : Nat) : List Nat := [(v >>> 8) &&& 0xFF, v &&& 0xFF]

/-- `binary.BigEndian.PutUint32`: the four big-endian bytes of a 32-bit value. -/
def be32 (v : Nat) : List Nat :=
  [(v >>> 24) &&& 0xFF, (v >>> 16) &&& 0xFF, (v >>> 8) &&& 0xFF, v &&& 0xFF]

/-- `binary.BigEndian.PutUint64`: the eight big-endian bytes of a 64-bit value. -/
def be64 (v : Nat) : List Nat :=
  [(v >>> 56) &&& 0xFF, (v >>> 48) &&& 0xFF, (v >>> 40) &&& 0xFF, (v >>> 32) &&& 0xFF,
   (v >>> 24) &&& 0xFF, (v >>> 16) &&& 0xFF, (v >>> 8) &&& 0xFF, v &&& 0xFF]

/-- `binary.BigEndian.Uint16` on the first two bytes of a slice. -/
def beUint16 (data : List Nat) : Nat :=
  (data.getD 0 0) <<< 8 ||| data.getD 1 0

/-- `binary.BigEndian.Uint32` on the first four bytes of a slice. -/
def beUint32 (data : List Nat) : Nat :=
  (data.getD 0 0) <<< 24 ||| (data.getD 1 0) <<< 16 ||| (data.getD 2 0) <<< 8 ||| data.getD 3 0

/-- `binary.BigEndian.Uint64` on the first eight bytes of a slice. -/
def beUint64 (data : List Nat) : Nat :=
  (data.getD 0 0) <<< 56 ||| (data.getD 1 0) <<< 48 ||| (data.getD 2 0) <<< 40 |||
  (data.getD 3 0) <<< 32 ||| (data.getD 4 0) <<< 24 ||| (data.getD 5 0) <<< 16 |||
  (data.getD 6 0) <<< 8 ||| data.getD 7 0

/-- Errors returned by the package: `ErrorWrongLen` and the three `fmt.Errorf`
messages of `ParseBytes`, each carrying the offending input. -/
inductive GoError where
  | errorWrongLen
  | invalidUUIDFormat (src : List Nat)
  | invalidURN (src : List Nat)
  | invalidUUIDLength (src : List Nat)
deriving DecidableEq, Repr

/-- `func (this*UUID) UnmarshalBinary(data []byte) error`: fails (leaving the
receiver untouched) only when fewer than 16 bytes are supplied. -/
def UUID.UnmarshalBinary (u : UUID) (data : List Nat) : UUID × Option GoError :=
  if data.length < 16 then (u, some .errorWrongLen)
  else ({ mostSigBits := beUint64 data, leastSigBits := beUint64 (data.drop 8) }, none)

/-- `func (this UUID) MarshalBinary() (dst []byte, err error)` specialised to the
always-successful 16-byte buffer it allocates. -/
def UUID.MarshalBinary (u : UUID) : List Nat :=
  be64 u.mostSigBits ++ be64 u.leastSigBits

/-- `func (this*UUID) UnmarshalSortableBinary(data []byte) error`. -/
def UUID.UnmarshalSortableBinary (u : UUID) (data : List Nat) : UUID × Option GoError :=
  if data.length < 16 then (u, some .errorWrongLen)
  else
    let timeHighAndVersion := beUint16 data
    let timeMid := beUint16 (data.drop 2)
    let timeLow := beUint32 (data.drop 4)
    ({ mostSigBits := (timeLow <<< 32) ||| (timeMid <<< 16) ||| timeHighAndVersion,
       leastSigBits := beUint64 (data.drop 8) ^^^ FlipSignedBits }, none)

/-- `func (this UUID) MarshalSortableBinary() []byte` (via
`MarshalSortableBinaryTo` on the 16-byte buffer it allocates):
`uint16(x)` and `uint32(x)` conversions are `% 2^16` and `% 2^32`. -/
def UUID.MarshalSortableBinary (u : UUID) : List Nat :=
  let timeHighAndVersion := u.mostSigBits % 2 ^ 16
  let timeMid := (u.mostSigBits >>> 16) % 2 ^ 16
  let timeLow := (u.mostSigBits >>> 32) % 2 ^ 32
  be16 timeHighAndVersion ++ be16 timeMid ++ be32 timeLow ++
    be64 (u.leastSigBits ^^^ FlipSignedBits)

/-- `fromHexChar` from `encoding/hex`: decodes one ASCII hex digit. -/
def fromHexChar (c : Nat) : Option Nat :=
  if 48 ≤ c ∧ c ≤ 57 then some (c - 48)
  else if 97 ≤ c ∧ c ≤ 102 then some (c - 97 + 10)
  else if 65 ≤ c ∧ c ≤ 70 then some (c - 65 + 10)
  else none

/-- `hex.Decode(dst, src)` as used in `ParseBytes`: decodes hex pairs into `n`
output bytes; on the first invalid digit (or missing pair) it stops, and the
remaining output bytes keep the zero value of the `[16]byte` destination.
`ParseBytes` discards the error `hex.Decode` reports in that case. -/
def hexDecodeZeroFill : List Nat → Nat → List Nat
  | _, 0 => []
  | a :: b :: rest, n + 1 =>
    match fromHexChar a, fromHexChar b with
    | some x, some y => (x <<< 4 ||| y) :: hexDecodeZeroFill rest n
    | _, _ => List.replicate (n + 1) 0
  | _, n + 1 => List.replicate (n + 1) 0

/-- `bytes.ToLower` on one ASCII byte. -/
def asciiLower (c : Nat) : Nat := if 65 ≤ c ∧ c ≤ 90 then c + 32 else c

/-- The nine bytes of the string constant spelling the URN scheme header
`u r n : u u i d :` that `ParseBytes` compares against. -/
def urnHeader : List Nat := [117, 114, 110, 58, 117, 117, 105, 100, 58]

/-- `func ParseBytes(src []byte) (UUID, error)`: the shape-reducing loop.
Byte 45 is the hyphen.  The 38-byte case strips the first and last byte
without inspecting them; the 32-byte case hex-decodes (discarding the
hex error) and unmarshals the 16 decoded bytes into a fresh `UUID`. -/
def ParseBytes (src : List Nat) : UUID × Option GoError :=
  if h36 : src.length = 36 then
    if src.getD 8 0 ≠ 45 ∨ src.getD 13 0 ≠ 45 ∨ src.getD 18 0 ≠ 45 ∨ src.getD 23 0 ≠ 45 then
      (ZeroUUID, some (.invalidUUIDFormat src))
    else
      ParseBytes (src.take 8 ++ ((src.drop 9).take 4 ++ ((src.drop 14).take 4 ++
        ((src.drop 19).take 4 ++ (src.drop 24).take 12))))
  else if h45 : src.length = 45 then
    if (src.take 9).map asciiLower ≠ urnHeader then
      (ZeroUUID, some (.invalidURN src))
    else
      ParseBytes (src.drop 9)
  else if h38 : src.length = 38 then
    ParseBytes ((src.drop 1).take 36)
  else if h32 : src.length = 32 then
    ZeroUUID.UnmarshalBinary (hexDecodeZeroFill src 16)
  else
    (ZeroUUID, some (.invalidUUIDLength src))
termination_by src.length
decreasing_by
  · simp only [List.length_append, List.length_take, List.length_drop, h36]
    omega
  · simp only [List.length_drop, h45]
    omega
  · simp only [List.length_take, List.length_drop, h38]
    omega

/-- `func (this *UUID) UnmarshalText(data []byte) error`: assigns the result of
`ParseBytes` to the receiver unconditionally and returns its error. -/
def UUID.UnmarshalText (_u : UUID) (data : List Nat) : UUID × Option GoError :=
  ParseBytes data

/-- The four bytes of the JSON literal `n u l l`. -/
def jsonNullBytes : List Nat := [110, 117, 108, 108]

/-- `func (this *UUID) UnmarshalJSON(data []byte) error`: a literal `null`
leaves the receiver unchanged, everything else goes through `ParseBytes`
and is assigned unconditionally. -/
def UUID.UnmarshalJSON (u : UUID) (data : List Nat) : UUID × Option GoError :=
  if data = jsonNullBytes then (u, none)
  else ParseBytes data

/-- Strict byte-wise unsigned lexicographic comparison, the order
`bytes.Compare(a, b) < 0` induces on equal-length byte slices. -/
def lexLt : List Nat → List Nat → Bool
  | [], [] => false
  | [], _ :: _ => true
  | _ :: _, [] => false
  | a :: as, b :: bs => a < b || (a == b && lexLt as bs)

/-- Big-endian base-256 value of a byte list, the specification-side reading
of `binary.BigEndian.Uint64` used to state the unmarshalling claims. -/
def beValue (data : List Nat) : Nat :=
  data.foldl (fun acc b => acc * 256 + b) 0

/-- A well-formed 36-byte hyphenated UUID: hyphens (byte 45) at positions
8, 13, 18 and 23, and hexadecimal digits everywhere else. -/
def isWellFormed36 (t : List Nat) : Bool :=
  t.length == 36 && t.getD 8 0 == 45 && t.getD 13 0 == 45 && t.getD 18 0 == 45 &&
    t.getD 23 0 == 45 &&
    ((t.take 8 ++ ((t.drop 9).take 4 ++ ((t.drop 14).take 4 ++ ((t.drop 19).take 4 ++
      (t.drop 24).take 12)))).all fun c => (fromHexChar c).isSome)

/-- The all-zero hyphenated UUID text wrapped in parentheses: a 38-byte input
whose enclosing pair is neither braces nor quotes. -/
def sampleWrapped38 : List Nat :=
  40 :: (List.replicate 8 48 ++ (45 :: (List.replicate 4 48 ++ (45 ::
    (List.replicate 4 48 ++ (45 :: (List.replicate 4 48 ++ (45 ::
    (List.replicate 12 48 ++ [41])))))))))

/-! Arithmetic toolkit: bitwise operations on `Nat` rewritten as division,
remainder and addition, so that `omega` can finish the word-level goals. -/

/-- Masking with `0xFF` is reduction modulo `2 ^ 8`. -/
theorem land_ff (x : Nat) : x &&& 0xFF = x % 2 ^ 8 := by
  simpa using Nat.and_pow_two_sub_one_eq_mod x 8

/-- Masking with `0x0FFF` is reduction modulo `2 ^ 12`. -/
theorem land_fff (x : Nat) : x &&& 0x0FFF = x % 2 ^ 12 := by
  simpa using Nat.and_pow_two_sub_one_eq_mod x 12

/-- Masking with `0xFFFF` is reduction modulo `2 ^ 16`. -/
theorem land_ffff (x : Nat) : x &&& 0xFFFF = x % 2 ^ 16 := by
  simpa using Nat.and_pow_two_sub_one_eq_mod x 16

/-- Masking with `0xFFFFFFFF` is reduction modulo `2 ^ 32`. -/
theorem land_ffffffff (x : Nat) : x &&& 0xFFFFFFFF = x % 2 ^ 32 := by
  simpa using Nat.and_pow_two_sub_one_eq_mod x 32

/-- Masking with `CounterMask` is reduction modulo `2 ^ 62`. -/
theorem land_counterMask (x : Nat) : x &&& CounterMask = x % 2 ^ 62 := by
  simpa [CounterMask] using Nat.and_pow_two_sub_one_eq_mod x 62

/-- Masking against a shifted mask equals shifting, masking, and shifting back. -/
theorem land_shiftLeft (x m k : Nat) : x &&& (m <<< k) = ((x >>> k) &&& m) <<< k := by
  apply Nat.eq_of_testBit_eq
  intro i
  simp only [Nat.testBit_and, Nat.testBit_shiftLeft, Nat.testBit_shiftRight]
  by_cases h : k ≤ i
  · have hik : k + (i - k) = i := by omega
    simp [h, hik, Bool.and_comm, Bool.and_left_comm]
  · simp [h]

/-- Bitwise or of disjoint summands is addition: if `a` lives above bit `k`
and `b` below it, `a ||| b = a + b`. -/
theorem lor_eq_add {k : Nat} (a b : Nat) (ha : 2 ^ k ∣ a) (hb : b < 2 ^ k) :
    a ||| b = a + b := by
  obtain ⟨q, rfl⟩ := ha
  exact (Nat.mul_add_lt_is_or hb q).symm

/-- Reassembling a 64-bit value from its eight big-endian bytes. -/
theorem byteChain8 (b0 b1 b2 b3 b4 b5 b6 b7 : Nat) (h1 : b1 < 2 ^ 8) (h2 : b2 < 2 ^ 8)
    (h3 : b3 < 2 ^ 8) (h4 : b4 < 2 ^ 8) (h5 : b5 < 2 ^ 8) (h6 : b6 < 2 ^ 8)
    (h7 : b7 < 2 ^ 8) :
    b0 <<< 56 ||| b1 <<< 48 ||| b2 <<< 40 ||| b3 <<< 32 ||| b4 <<< 24 ||| b5 <<< 16 |||
      b6 <<< 8 ||| b7 =
      b0 * 2 ^ 56 + b1 * 2 ^ 48 + b2 * 2 ^ 40 + b3 * 2 ^ 32 + b4 * 2 ^ 24 + b5 * 2 ^ 16 +
        b6 * 2 ^ 8 + b7 := by
  have e1 : b0 <<< 56 ||| b1 <<< 48 = b0 * 2 ^ 56 + b1 * 2 ^ 48 := by
    rw [Nat.shiftLeft_eq, Nat.shiftLeft_eq]
    exact lor_eq_add (k := 56) _ _ ⟨b0, by ring⟩ (by omega)
  have e2 : b0 * 2 ^ 56 + b1 * 2 ^ 48 ||| b2 <<< 40 =
      b0 * 2 ^ 56 + b1 * 2 ^ 48 + b2 * 2 ^ 40 := by
    rw [Nat.shiftLeft_eq]
    exact lor_eq_add (k := 48) _ _ ⟨b0 * 2 ^ 8 + b1, by ring⟩ (by omega)
  have e3 : b0 * 2 ^ 56 + b1 * 2 ^ 48 + b2 * 2 ^ 40 ||| b3 <<< 32 =
      b0 * 2 ^ 56 + b1 * 2 ^ 48 + b2 * 2 ^ 40 + b3 * 2 ^ 32 := by
    rw [Nat.shiftLeft_eq]
    exact lor_eq_add (k := 40) _ _ ⟨b0 * 2 ^ 16 + b1 * 2 ^ 8 + b2, by ring⟩ (by omega)
  have e4 : b0 * 2 ^ 56 + b1 * 2 ^ 48 + b2 * 2 ^ 40 + b3 * 2 ^ 32 ||| b4 <<< 24 =
      b0 * 2 ^ 56 + b1 * 2 ^ 48 + b2 * 2 ^ 40 + b3 * 2 ^ 32 + b4 * 2 ^ 24 := by
    rw [Nat.shiftLeft_eq]
    exact lor_eq_add (k := 32) _ _ ⟨b0 * 2 ^ 24 + b1 * 2 ^ 16 + b2 * 2 ^ 8 + b3, by ring⟩
      (by omega)
  have e5 : b0 * 2 ^ 56 + b1 * 2 ^ 48 + b2 * 2 ^ 40 + b3 * 2 ^ 32 + b4 * 2 ^ 24 |||
      b5 <<< 16 =
      b0 * 2 ^ 56 + b1 * 2 ^ 48 + b2 * 2 ^ 40 + b3 * 2 ^ 32 + b4 * 2 ^ 24 + b5 * 2 ^ 16 := by
    rw [Nat.shiftLeft_eq]
    exact lor_eq_add (k := 24) _ _
      ⟨b0 * 2 ^ 32 + b1 * 2 ^ 24 + b2 * 2 ^ 16 + b3 * 2 ^ 8 + b4, by ring⟩ (by omega)
  have e6 : b0 * 2 ^ 56 + b1 * 2 ^ 48 + b2 * 2 ^ 40 + b3 * 2 ^ 32 + b4 * 2 ^ 24 +
      b5 * 2 ^ 16 ||| b6 <<< 8 =
      b0 * 2 ^ 56 + b1 * 2 ^ 48 + b2 * 2 ^ 40 + b3 * 2 ^ 32 + b4 * 2 ^ 24 + b5 * 2 ^ 16 +
        b6 * 2 ^ 8 := by
    rw [Nat.shiftLeft_eq]
    exact lor_eq_add (k := 16) _ _
      ⟨b0 * 2 ^ 40 + b1 * 2 ^ 32 + b2 * 2 ^ 24 + b3 * 2 ^ 16 + b4 * 2 ^ 8 + b5, by ring⟩
      (by omega)
  have e7 : b0 * 2 ^ 56 + b1 * 2 ^ 48 + b2 * 2 ^ 40 + b3 * 2 ^ 32 + b4 * 2 ^ 24 +
      b5 * 2 ^ 16 + b6 * 2 ^ 8 ||| b7 =
      b0 * 2 ^ 56 + b1 * 2 ^ 48 + b2 * 2 ^ 40 + b3 * 2 ^ 32 + b4 * 2 ^ 24 + b5 * 2 ^ 16 +
        b6 * 2 ^ 8 + b7 :=
    lor_eq_add (k := 8) _ _
      ⟨b0 * 2 ^ 48 + b1 * 2 ^ 40 + b2 * 2 ^ 32 + b3 * 2 ^ 24 + b4 * 2 ^ 16 + b5 * 2 ^ 8 + b6,
        by ring⟩ h7
  rw [e1, e2, e3, e4, e5, e6, e7]

/-- Reassembling a 32-bit value from its four big-endian bytes. -/
theorem byteChain4 (b0 b1 b2 b3 : Nat) (h1 : b1 < 2 ^ 8) (h2 : b2 < 2 ^ 8)
    (h3 : b3 < 2 ^ 8) :
    b0 <<< 24 ||| b1 <<< 16 ||| b2 <<< 8 ||| b3 =
      b0 * 2 ^ 24 + b1 * 2 ^ 16 + b2 * 2 ^ 8 + b3 := by
  have e1 : b0 <<< 24 ||| b1 <<< 16 = b0 * 2 ^ 24 + b1 * 2 ^ 16 := by
    rw [Nat.shiftLeft_eq, Nat.shiftLeft_eq]
    exact lor_eq_add (k := 24) _ _ ⟨b0, by ring⟩ (by omega)
  have e2 : b0 * 2 ^ 24 + b1 * 2 ^ 16 ||| b2 <<< 8 =
      b0 * 2 ^ 24 + b1 * 2 ^ 16 + b2 * 2 ^ 8 := by
    rw [Nat.shiftLeft_eq]
    exact lor_eq_add (k := 16) _ _ ⟨b0 * 2 ^ 8 + b1, by ring⟩ (by omega)
  have e3 : b0 * 2 ^ 24 + b1 * 2 ^ 16 + b2 * 2 ^ 8 ||| b3 =
      b0 * 2 ^ 24 + b1 * 2 ^ 16 + b2 * 2 ^ 8 + b3 :=
    lor_eq_add (k := 8) _ _ ⟨b0 * 2 ^ 16 + b1 * 2 ^ 8 + b2, by ring⟩ h3
  rw [e1, e2, e3]

/-- Reassembling a 16-bit value from its two big-endian bytes. -/
theorem byteChain2 (b0 b1 : Nat) (h1 : b1 < 2 ^ 8) :
    b0 <<< 8 ||| b1 = b0 * 2 ^ 8 + b1 := by
  rw [Nat.shiftLeft_eq]
  exact lor_eq_add (k := 8) _ _ ⟨b0, by ring⟩ h1

/-- Masking with `0xF` is reduction modulo `2 ^ 4`. -/
theorem land_f (x : Nat) : x &&& 0xF = x % 2 ^ 4 := by
  simpa using Nat.and_pow_two_sub_one_eq_mod x 4

/-- Reading back the two bytes of `be16` recovers the value modulo `2 ^ 16`. -/
theorem beUint16_be16 (v : Nat) (r : List Nat) : beUint16 (be16 v ++ r) = v % 2 ^ 16 := by
  show (v >>> 8 &&& 0xFF) <<< 8 ||| (v &&& 0xFF) = v % 2 ^ 16
  rw [byteChain2 _ _ (by have := Nat.and_le_right (n := v) (m := 0xFF); omega)]
  rw [land_ff, land_ff, Nat.shiftRight_eq_div_pow]
  omega

/-- Reading back the four bytes of `be32` recovers the value modulo `2 ^ 32`. -/
theorem beUint32_be32 (v : Nat) (r : List Nat) : beUint32 (be32 v ++ r) = v % 2 ^ 32 := by
  show (v >>> 24 &&& 0xFF) <<< 24 ||| (v >>> 16 &&& 0xFF) <<< 16 |||
      (v >>> 8 &&& 0xFF) <<< 8 ||| (v &&& 0xFF) = v % 2 ^ 32
  rw [byteChain4 _ _ _ _ (by have := Nat.and_le_right (n := v >>> 16) (m := 0xFF); omega)
    (by have := Nat.and_le_right (n := v >>> 8) (m := 0xFF); omega)
    (by have := Nat.and_le_right (n := v) (m := 0xFF); omega)]
  rw [land_ff, land_ff, land_ff, land_ff, Nat.shiftRight_eq_div_pow,
    Nat.shiftRight_eq_div_pow, Nat.shiftRight_eq_div_pow]
  omega

/-- Reading back the eight bytes of `be64` recovers the value modulo `2 ^ 64`. -/
theorem beUint64_be64 (v : Nat) : beUint64 (be64 v) = v % 2 ^ 64 := by
  show (v >>> 56 &&& 0xFF) <<< 56 ||| (v >>> 48 &&& 0xFF) <<< 48 |||
      (v >>> 40 &&& 0xFF) <<< 40 ||| (v >>> 32 &&& 0xFF) <<< 32 |||
      (v >>> 24 &&& 0xFF) <<< 24 ||| (v >>> 16 &&& 0xFF) <<< 16 |||
      (v >>> 8 &&& 0xFF) <<< 8 ||| (v &&& 0xFF) = v % 2 ^ 64
  rw [byteChain8 _ _ _ _ _ _ _ _
    (by have := Nat.and_le_right (n := v >>> 48) (m := 0xFF); omega)
    (by have := Nat.and_le_right (n := v >>> 40) (m := 0xFF); omega)
    (by have := Nat.and_le_right (n := v >>> 32) (m := 0xFF); omega)
    (by have := Nat.and_le_right (n := v >>> 24) (m := 0xFF); omega)
    (by have := Nat.and_le_right (n := v >>> 16) (m := 0xFF); omega)
    (by have := Nat.and_le_right (n := v >>> 8) (m := 0xFF); omega)
    (by have := Nat.and_le_right (n := v) (m := 0xFF); omega)]
  rw [land_ff, land_ff, land_ff, land_ff, land_ff, land_ff, land_ff, land_ff,
    Nat.shiftRight_eq_div_pow, Nat.shiftRight_eq_div_pow, Nat.shiftRight_eq_div_pow,
    Nat.shiftRight_eq_div_pow, Nat.shiftRight_eq_div_pow, Nat.shiftRight_eq_div_pow,
    Nat.shiftRight_eq_div_pow]
  omega

/-- Recombining the sortable timestamp halves written by the unmarshaller. -/
theorem orChainTime (tl tm thv : Nat) (htm : tm < 2 ^ 16) (hthv : thv < 2 ^ 16) :
    tl <<< 32 ||| tm <<< 16 ||| thv = tl * 2 ^ 32 + tm * 2 ^ 16 + thv := by
  have e1 : tl <<< 32 ||| tm <<< 16 = tl * 2 ^ 32 + tm * 2 ^ 16 := by
    rw [Nat.shiftLeft_eq, Nat.shiftLeft_eq]
    exact lor_eq_add (k := 32) _ _ ⟨tl, by ring⟩ (by omega)
  have e2 : tl * 2 ^ 32 + tm * 2 ^ 16 ||| thv = tl * 2 ^ 32 + tm * 2 ^ 16 + thv :=
    lor_eq_add (k := 16) _ _ ⟨tl * 2 ^ 16 + tm, by ring⟩ hthv
  rw [e1, e2]

/-- Recombining the three timestamp parts read by `Time100NanosUnsigned`. -/
theorem orChainTime48 (th tm tl : Nat) (htm : tm < 2 ^ 16) (htl : tl < 2 ^ 32) :
    th <<< 48 ||| tm <<< 32 ||| tl = th * 2 ^ 48 + tm * 2 ^ 32 + tl := by
  have e1 : th <<< 48 ||| tm <<< 32 = th * 2 ^ 48 + tm * 2 ^ 32 := by
    rw [Nat.shiftLeft_eq, Nat.shiftLeft_eq]
    exact lor_eq_add (k := 48) _ _ ⟨th, by ring⟩ (by omega)
  have e2 : th * 2 ^ 48 + tm * 2 ^ 32 ||| tl = th * 2 ^ 48 + tm * 2 ^ 32 + tl :=
    lor_eq_add (k := 32) _ _ ⟨th * 2 ^ 16 + tm, by ring⟩ htl
  rw [e1, e2]

/-- The accumulated word built by `SetTime100NanosUnsigned`, as a sum. -/
theorem orChainSet (a b c : Nat) (hb : b < 2 ^ 16) (hc : c < 2 ^ 12) :
    ((TimebasedVersion ||| a <<< 32) ||| b * 2 ^ 16) ||| c =
      a * 2 ^ 32 + b * 2 ^ 16 + 2 ^ 12 + c := by
  have htv : TimebasedVersion = 2 ^ 12 := by norm_num [TimebasedVersion]
  rw [Nat.shiftLeft_eq]
  rw [Nat.or_comm TimebasedVersion (a * 2 ^ 32)]
  rw [Nat.or_assoc (a * 2 ^ 32) TimebasedVersion (b * 2 ^ 16)]
  rw [Nat.or_comm TimebasedVersion (b * 2 ^ 16)]
  rw [← Nat.or_assoc (a * 2 ^ 32) (b * 2 ^ 16) TimebasedVersion]
  rw [Nat.or_assoc (a * 2 ^ 32 ||| b * 2 ^ 16) TimebasedVersion c]
  have h1 : a * 2 ^ 32 ||| b * 2 ^ 16 = a * 2 ^ 32 + b * 2 ^ 16 :=
    lor_eq_add (k := 32) _ _ ⟨a, by ring⟩ (by omega)
  have h2 : TimebasedVersion ||| c = 2 ^ 12 + c := by
    rw [htv]
    exact lor_eq_add (k := 12) _ _ ⟨1, by ring⟩ hc
  rw [h1, h2]
  rw [lor_eq_add (k := 13) _ _ ⟨a * 2 ^ 19 + b * 2 ^ 3, by ring⟩ (by omega)]
  omega

/-- Arithmetic form of the most-significant word written by
`SetTime100NanosUnsigned`. -/
theorem setTime_mostSigBits (u : UUID) (t : Nat) :
    (u.SetTime100NanosUnsigned t).mostSigBits =
      (t % 2 ^ 32) * 2 ^ 32 + (t / 2 ^ 32 % 2 ^ 16) * 2 ^ 16 + 2 ^ 12 + t / 2 ^ 48 % 2 ^ 12 := by
  show ((TimebasedVersion ||| (t &&& 0xFFFFFFFF) <<< 32) |||
      ((t &&& 0xFFFF00000000) >>> 16)) ||| ((t &&& 0xFFF000000000000) >>> 48) = _
  have hB : (t &&& 0xFFFF00000000) >>> 16 = (t / 2 ^ 32 % 2 ^ 16) * 2 ^ 16 := by
    have hm : (0xFFFF00000000 : Nat) = 0xFFFF <<< 32 := by norm_num [Nat.shiftLeft_eq]
    rw [hm, land_shiftLeft, land_ffff, Nat.shiftLeft_eq, Nat.shiftRight_eq_div_pow,
      Nat.shiftRight_eq_div_pow]
    omega
  have hC : (t &&& 0xFFF000000000000) >>> 48 = t / 2 ^ 48 % 2 ^ 12 := by
    have hm : (0xFFF000000000000 : Nat) = 0xFFF <<< 48 := by norm_num [Nat.shiftLeft_eq]
    rw [hm, land_shiftLeft, land_fff, Nat.shiftLeft_eq, Nat.shiftRight_eq_div_pow,
      Nat.shiftRight_eq_div_pow]
    omega
  rw [land_ffffffff, hB, hC]
  exact orChainSet _ _ _ (by omega) (by omega)

/-- Arithmetic form of the 60-bit timestamp read by `Time100NanosUnsigned`. -/
theorem time100NanosUnsigned_eq (u : UUID) :
    u.Time100NanosUnsigned =
      (u.mostSigBits % 2 ^ 12) * 2 ^ 48 + (u.mostSigBits / 2 ^ 16 % 2 ^ 16) * 2 ^ 32 +
        u.mostSigBits / 2 ^ 32 % 2 ^ 32 := by
  show (u.mostSigBits &&& 0x0FFF) <<< 48 ||| ((u.mostSigBits >>> 16) &&& 0xFFFF) <<< 32 |||
      ((u.mostSigBits >>> 32) &&& 0xFFFFFFFF) = _
  rw [orChainTime48 _ _ _
    (by have := Nat.and_le_right (n := u.mostSigBits >>> 16) (m := 0xFFFF); omega)
    (by have := Nat.and_le_right (n := u.mostSigBits >>> 32) (m := 0xFFFFFFFF); omega)]
  rw [land_fff, land_ffff, land_ffffffff, Nat.shiftRight_eq_div_pow, Nat.shiftRight_eq_div_pow]

/-- The timestamp field always fits in 60 bits. -/
theorem time100NanosUnsigned_lt (u : UUID) : u.Time100NanosUnsigned < 2 ^ 60 := by
  rw [time100NanosUnsigned_eq]
  have h1 := Nat.mod_lt u.mostSigBits (y := 2 ^ 12) (by norm_num)
  have h2 := Nat.mod_lt (u.mostSigBits / 2 ^ 16) (y := 2 ^ 16) (by norm_num)
  have h3 := Nat.mod_lt (u.mostSigBits / 2 ^ 32) (y := 2 ^ 32) (by norm_num)
  omega

/-- A shared equal prefix does not affect the lexicographic comparison. -/
theorem lexLt_append (p s1 s2 : List Nat) : lexLt (p ++ s1) (p ++ s2) = lexLt s1 s2 := by
  induction p with
  | nil => rfl
  | cons a p ih => simp [lexLt, ih]

/-- Folding one more byte multiplies the accumulator by the remaining weight. -/
theorem beValue_cons (x : Nat) (xs : List Nat) :
    beValue (x :: xs) = x * 256 ^ xs.length + beValue xs := by
  have aux : ∀ (ys : List Nat) (acc : Nat),
      ys.foldl (fun a b => a * 256 + b) acc =
        acc * 256 ^ ys.length + ys.foldl (fun a b => a * 256 + b) 0 := by
    intro ys
    induction ys with
    | nil => simp
    | cons y ys ih =>
      intro acc
      simp only [List.foldl_cons, List.length_cons]
      rw [ih (acc * 256 + y), ih (0 * 256 + y)]
      ring
  show (x :: xs).foldl (fun a b => a * 256 + b) 0 = _
  simp only [List.foldl_cons]
  rw [aux xs (0 * 256 + x)]
  norm_num [beValue]

/-- The big-endian value of a byte list is bounded by the weight of its length. -/
theorem beValue_lt (xs : List Nat) (h : ∀ x ∈ xs, x < 256) :
    beValue xs < 256 ^ xs.length := by
  induction xs with
  | nil => simp [beValue]
  | cons y ys ih =>
    rw [beValue_cons]
    have hy : y < 256 := h y (by simp)
    have hys := ih (fun x hx => h x (by simp [hx]))
    simp only [List.length_cons]
    calc y * 256 ^ ys.length + beValue ys < y * 256 ^ ys.length + 256 ^ ys.length := by omega
      _ = (y + 1) * 256 ^ ys.length := by ring
      _ ≤ 256 * 256 ^ ys.length := Nat.mul_le_mul_right _ (by omega)
      _ = 256 ^ (ys.length + 1) := by ring

/-- For equal-length byte lists, lexicographic order is big-endian numeric order. -/
theorem lexLt_iff_beValue (xs : List Nat) : ∀ (ys : List Nat),
    xs.length = ys.length → (∀ x ∈ xs, x < 256) → (∀ y ∈ ys, y < 256) →
    (lexLt xs ys = true ↔ beValue xs < beValue ys) := by
  induction xs with
  | nil =>
    intro ys hlen _ _
    cases ys with
    | nil => simp [lexLt, beValue]
    | cons b bs => simp at hlen
  | cons a as ih =>
    intro ys hlen hx hy
    cases ys with
    | nil => simp at hlen
    | cons b bs =>
      have hlen' : as.length = bs.length := by simpa using hlen
      have hvas : beValue as < 256 ^ bs.length := by
        rw [← hlen']
        exact beValue_lt as (fun x h => hx x (by simp [h]))
      have hvbs : beValue bs < 256 ^ bs.length := beValue_lt bs (fun x h => hy x (by simp [h]))
      rw [beValue_cons, beValue_cons, hlen']
      have hrec := ih bs hlen' (fun x h => hx x (by simp [h])) (fun x h => hy x (by simp [h]))
      show (decide (a < b) || (a == b && lexLt as bs)) = true ↔ _
      simp only [Bool.or_eq_true, Bool.and_eq_true, decide_eq_true_eq, beq_iff_eq, hrec]
      constructor
      · rintro (h | ⟨rfl, h⟩)
        · calc a * 256 ^ bs.length + beValue as
              < a * 256 ^ bs.length + 256 ^ bs.length := by omega
            _ = (a + 1) * 256 ^ bs.length := by ring
            _ ≤ b * 256 ^ bs.length := Nat.mul_le_mul_right _ (by omega)
            _ ≤ b * 256 ^ bs.length + beValue bs := Nat.le_add_right _ _
        · exact Nat.add_lt_add_left h _
      · intro h
        rcases Nat.lt_trichotomy a b with hab | hab | hab
        · exact Or.inl hab
        · subst hab
          exact Or.inr ⟨rfl, Nat.lt_of_add_lt_add_left h⟩
        · exfalso
          have hgt : b * 256 ^ bs.length + beValue bs < a * 256 ^ bs.length + beValue as :=
            calc b * 256 ^ bs.length + beValue bs
                < b * 256 ^ bs.length + 256 ^ bs.length := by omega
              _ = (b + 1) * 256 ^ bs.length := by ring
              _ ≤ a * 256 ^ bs.length := Nat.mul_le_mul_right _ (by omega)
              _ ≤ a * 256 ^ bs.length + beValue as := Nat.le_add_right _ _
          omega

/-- The `be64` encoding always spans eight bytes. -/
theorem be64_length (v : Nat) : (be64 v).length = 8 := by
  simp [be64]

/-- Every entry of `be64` is a byte. -/
theorem be64_bytes (v : Nat) : ∀ x ∈ be64 v, x < 256 := by
  intro x hx
  simp only [be64, List.mem_cons, List.not_mem_nil, or_false] at hx
  rcases hx with h | h | h | h | h | h | h | h <;>
    · subst h
      rw [land_ff]
      omega

/-- The big-endian value of the eight `be64` bytes is the value modulo `2 ^ 64`. -/
theorem beValue_be64 (v : Nat) : beValue (be64 v) = v % 2 ^ 64 := by
  simp only [be64, beValue, List.foldl_cons, List.foldl_nil, land_ff,
    Nat.shiftRight_eq_div_pow]
  omega

/-- On eight-byte big-endian encodings of 64-bit values, the lexicographic
order agrees with the numeric order. -/
theorem lexLt_be64 (a b : Nat) (ha : a < 2 ^ 64) (hb : b < 2 ^ 64) :
    lexLt (be64 a) (be64 b) = true ↔ a < b := by
  rw [lexLt_iff_beValue (be64 a) (be64 b) (by rw [be64_length, be64_length])
    (be64_bytes a) (be64_bytes b),
    beValue_be64, beValue_be64, Nat.mod_eq_of_lt ha, Nat.mod_eq_of_lt hb]

/-- Eight-byte big-endian encodings of 64-bit values are injective. -/
theorem be64_inj (a b : Nat) (ha : a < 2 ^ 64) (hb : b < 2 ^ 64) :
    be64 a = be64 b ↔ a = b := by
  constructor
  · intro h
    have hv : beUint64 (be64 a) = beUint64 (be64 b) := by rw [h]
    rw [beUint64_be64, beUint64_be64] at hv
    omega
  · intro h
    rw [h]

/-- The last eight bytes of the sortable encoding are the flipped
least-significant word. -/
theorem marshalSortable_drop8 (u : UUID) :
    (u.MarshalSortableBinary).drop 8 = be64 (u.leastSigBits ^^^ FlipSignedBits) := rfl

/-- The sortable encoding always spans sixteen bytes. -/
theorem marshalSortable_length (u : UUID) : (u.MarshalSortableBinary).length = 16 := rfl

/-- The least-significant word after `SetCounterUnsigned`, undone by the
marshal-time flip: the sanitized counter with the IETF top bit. -/
theorem setCounterUnsigned_flip (u : UUID) (c : Nat) :
    ((u.SetCounterUnsigned c).1).leastSigBits ^^^ FlipSignedBits =
      c % 2 ^ 62 ||| IETFVariant := by
  show ((c &&& CounterMask ||| IETFVariant) ^^^ FlipSignedBits) ^^^ FlipSignedBits = _
  rw [Nat.xor_cancel_right, land_counterMask]

/-- Attaching the IETF bit to a 62-bit value is adding `2 ^ 63`. -/
theorem counterKey (m : Nat) (hm : m < 2 ^ 62) : m ||| IETFVariant = 2 ^ 63 + m := by
  have hIETF : IETFVariant = 2 ^ 63 := by norm_num [IETFVariant, Nat.shiftLeft_eq]
  rw [Nat.or_comm, hIETF]
  exact lor_eq_add (k := 62) _ _ ⟨2, by ring⟩ hm

/-- Reading the three timestamp windows out of the freshly written word. -/
theorem timeRebuild (a b c : Nat) (hab : a < 2 ^ 32) (hbb : b < 2 ^ 16) (hcb : c < 2 ^ 12) :
    ((a * 2 ^ 32 + b * 2 ^ 16 + 2 ^ 12 + c) % 2 ^ 12) * 2 ^ 48 +
      ((a * 2 ^ 32 + b * 2 ^ 16 + 2 ^ 12 + c) / 2 ^ 16 % 2 ^ 16) * 2 ^ 32 +
      (a * 2 ^ 32 + b * 2 ^ 16 + 2 ^ 12 + c) / 2 ^ 32 % 2 ^ 32 =
      c * 2 ^ 48 + b * 2 ^ 32 + a := by
  omega

/-- The version window of the freshly written word holds the code 1. -/
theorem versionRebuild (a b c : Nat) (hcb : c < 2 ^ 12) :
    ((a * 2 ^ 32 + b * 2 ^ 16 + 2 ^ 12 + c) / 2 ^ 12 % 2 ^ 4) * 2 ^ 12 / 2 ^ 12 = 1 := by
  omega

/-- Setting a sub-2^60 timestamp and reading it back is the identity. -/
theorem setTime_get (x : UUID) (t : Nat) (ht : t < 2 ^ 60) :
    (x.SetTime100NanosUnsigned t).Time100NanosUnsigned = t := by
  rw [time100NanosUnsigned_eq, setTime_mostSigBits]
  rw [timeRebuild (t % 2 ^ 32) (t / 2 ^ 32 % 2 ^ 16) (t / 2 ^ 48 % 2 ^ 12)
    (by omega) (by omega) (by omega)]
  omega

/-- The version nibble after `SetTime100NanosUnsigned` is the time-based code. -/
theorem setTime_versionNibble (x : UUID) (t : Nat) :
    ((x.SetTime100NanosUnsigned t).mostSigBits &&& VersionMask) >>> 12 = 1 := by
  rw [setTime_mostSigBits]
  have hm : VersionMask = 0xF <<< 12 := by norm_num [VersionMask, Nat.shiftLeft_eq]
  rw [hm, land_shiftLeft, land_f, Nat.shiftLeft_eq, Nat.shiftRight_eq_div_pow,
    Nat.shiftRight_eq_div_pow]
  exact versionRebuild (t % 2 ^ 32) (t / 2 ^ 32 % 2 ^ 16) (t / 2 ^ 48 % 2 ^ 12) (by omega)

/-- Claim C9: for every identifier and every 60-bit timestamp value t, setting
the timestamp and reading it back returns exactly t, the version becomes the
time-based code regardless of the prior version, and the low word is
untouched. -/
theorem c9_setTime_roundtrip_version (x : UUID) (t : Nat) (ht : t < 2 ^ 60) :
    (x.SetTime100NanosUnsigned t).Time100NanosUnsigned = t ∧
    (x.SetTime100NanosUnsigned t).Version = Version.TimebasedUUID ∧
    (x.SetTime100NanosUnsigned t).leastSigBits = x.leastSigBits := by
  refine ⟨setTime_get x t ht, ?_, rfl⟩
  have hv := setTime_versionNibble x t
  simp [UUID.Version, hv, versionOfNat]

/-- Witness for C9 at the zero identifier and timestamp 5. -/
theorem c9_witness :
    (ZeroUUID.SetTime100NanosUnsigned 5).Time100NanosUnsigned = 5 ∧
    (ZeroUUID.SetTime100NanosUnsigned 5).Version = Version.TimebasedUUID ∧
    (ZeroUUID.SetTime100NanosUnsigned 5).leastSigBits = ZeroUUID.leastSigBits :=
  c9_setTime_roundtrip_version ZeroUUID 5 (by norm_num)

/-- The sortable encoding, with its lets unfolded. -/
theorem marshalSortable_eq (u : UUID) :
    u.MarshalSortableBinary =
      be16 (u.mostSigBits % 2 ^ 16) ++ (be16 ((u.mostSigBits >>> 16) % 2 ^ 16) ++
        (be32 ((u.mostSigBits >>> 32) % 2 ^ 32) ++
          be64 (u.leastSigBits ^^^ FlipSignedBits))) := rfl

/-- Length of a 2-2-4-8 byte block. -/
theorem sortable_shape_length (a b c d : Nat) :
    (be16 a ++ (be16 b ++ (be32 c ++ be64 d))).length = 16 := by
  simp [be16, be32, be64]

/-- Dropping the first `be16` block. -/
theorem drop2_shape (a : Nat) (r : List Nat) : (be16 a ++ r).drop 2 = r := rfl

/-- Dropping the two leading `be16` blocks. -/
theorem drop4_shape (a b : Nat) (r : List Nat) :
    (be16 a ++ (be16 b ++ r)).drop 4 = r := rfl

/-- Dropping the leading 2-2-4 byte blocks. -/
theorem drop8_shape (a b c : Nat) (r : List Nat) :
    (be16 a ++ (be16 b ++ (be32 c ++ r))).drop 8 = r := rfl

/-- Claim C3: for every identifier (any pair of 64-bit words), unmarshalling
the 16-byte result of `MarshalSortableBinary` via `UnmarshalSortableBinary`
succeeds and restores both words exactly, whatever the prior target held. -/
theorem c3_sortable_roundtrip (u0 : UUID) (hi lo : Nat) (hhi : hi < 2 ^ 64)
    (hlo : lo < 2 ^ 64) :
    u0.UnmarshalSortableBinary ((UUID.mk hi lo).MarshalSortableBinary) =
      (UUID.mk hi lo, none) := by
  have hflip : lo ^^^ FlipSignedBits < 2 ^ 64 :=
    Nat.xor_lt_two_pow hlo (by norm_num [FlipSignedBits])
  rw [marshalSortable_eq]
  dsimp only
  simp only [UUID.UnmarshalSortableBinary, sortable_shape_length, drop2_shape,
    drop4_shape, drop8_shape, beUint16_be16, beUint32_be32, beUint64_be64]
  norm_num [Prod.mk.injEq, UUID.mk.injEq]
  constructor
  · rw [orChainTime _ _ _ (by omega) (by omega), Nat.shiftRight_eq_div_pow,
      Nat.shiftRight_eq_div_pow]
    omega
  · rw [Nat.mod_eq_of_lt (by omega), Nat.xor_cancel_right]

/-- Witness for C3 at a concrete pair of words. -/
theorem c3_witness :
    ZeroUUID.UnmarshalSortableBinary ((UUID.mk 0x1234567890ABCDEF 0x0FEDCBA987654321).MarshalSortableBinary) =
      (UUID.mk 0x1234567890ABCDEF 0x0FEDCBA987654321, none) :=
  c3_sortable_roundtrip ZeroUUID 0x1234567890ABCDEF 0x0FEDCBA987654321
    (by norm_num) (by norm_num)

/-- Claim C4: for every identifier and every int64 millisecond value m,
including negative m, as long as m * 10000 plus the UUID epoch offset is
non-negative and fits the 60-bit timestamp, `SetUnixTimeMillis` followed by
`UnixTimeMillis` returns exactly m — the round trip is exact also before
1970 because the final division divides an exact multiple of 10000. -/
theorem c4_unixMillis_roundtrip (x : UUID) (m : Int)
    (h0 : 0 ≤ m * 10000 + 0x01b21dd213814000)
    (h60 : m * 10000 + 0x01b21dd213814000 < 2 ^ 60) :
    (x.SetUnixTimeMillis m).UnixTimeMillis = m := by
  have hwrap : i64wrap (m * One100NanosInMillis + Num100NanosSinceUUIDEpoch) =
      m * 10000 + 0x01b21dd213814000 := by
    unfold i64wrap One100NanosInMillis Num100NanosSinceUUIDEpoch
    omega
  have htn : toUint64 (m * 10000 + 0x01b21dd213814000) =
      (m * 10000 + 0x01b21dd213814000).toNat := by
    unfold toUint64
    rw [Int.emod_eq_of_lt h0 (by omega)]
  have hT60 : (m * 10000 + 0x01b21dd213814000).toNat < 2 ^ 60 := by omega
  unfold UUID.SetUnixTimeMillis UUID.SetTime100Nanos
  rw [hwrap, htn]
  unfold UUID.UnixTimeMillis UUID.Time100Nanos
  rw [setTime_get x _ hT60]
  have hti : toInt64 (m * 10000 + 0x01b21dd213814000).toNat =
      ((m * 10000 + 0x01b21dd213814000).toNat : Int) := by
    unfold toInt64
    rw [if_pos (by omega)]
  rw [hti]
  have hTi : (((m * 10000 + 0x01b21dd213814000).toNat : Int)) =
      m * 10000 + 0x01b21dd213814000 := by omega
  rw [hTi]
  have hsub : i64wrap (m * 10000 + 0x01b21dd213814000 - Num100NanosSinceUUIDEpoch) =
      m * 10000 := by
    unfold i64wrap Num100NanosSinceUUIDEpoch
    omega
  rw [hsub]
  show (m * 10000).tdiv One100NanosInMillis = m
  unfold One100NanosInMillis
  exact Int.mul_tdiv_cancel m (by norm_num)

/-- Witness for C4 at the zero identifier and the pre-1970 value m = -1. -/
theorem c4_witness : (ZeroUUID.SetUnixTimeMillis (-1)).UnixTimeMillis = -1 :=
  c4_unixMillis_roundtrip ZeroUUID (-1) (by norm_num) (by norm_num)

/-- `SetCounter` on a non-negative in-range int64 delegates to
`SetCounterUnsigned` on the same numeric value. -/
theorem setCounter_toNat (x : UUID) (c : Int) (h0 : 0 ≤ c) (hc : c < 2 ^ 64) :
    (x.SetCounter c).1 = (x.SetCounterUnsigned c.toNat).1 := by
  simp only [UUID.SetCounter, toUint64]
  rw [Int.emod_eq_of_lt h0 hc]

/-- The sortable encoding after `SetCounterUnsigned`: the timestamp blocks of
the untouched high word, then the eight bytes of the counter key. -/
theorem marshal_setCounterUnsigned (x : UUID) (c : Nat) :
    ((x.SetCounterUnsigned c).1).MarshalSortableBinary =
      be16 (x.mostSigBits % 2 ^ 16) ++ (be16 ((x.mostSigBits >>> 16) % 2 ^ 16) ++
        (be32 ((x.mostSigBits >>> 32) % 2 ^ 32) ++
          be64 (c % 2 ^ 62 ||| IETFVariant))) := by
  rw [marshalSortable_eq]
  dsimp only [UUID.SetCounterUnsigned]
  rw [Nat.xor_cancel_right, land_counterMask]

/-- Counterexample to C1 as stated: with the timestamp word held equal, the
identifier written by `SetMinCounter` does not sort strictly below the one
written by `SetCounter 0` — their sortable encodings coincide. -/
theorem c1_counterexample :
    lexLt (((ZeroUUID.SetMinCounter).MarshalSortableBinary).drop 8)
      ((((ZeroUUID.SetCounter 0).1).MarshalSortableBinary).drop 8) = false := by
  decide

/-- Claim C1 (amended): in the sortable encoding, with timestamp words held
equal, `SetMinCounter` sorts below-or-equal every `SetCounter n` for n in
[0, 0x3FFFFFFFFFFFFFFF] — strictly below exactly when n is positive, equal
exactly at n = 0 — and `SetMaxCounter` sorts strictly above every such
`SetCounter n`, under byte-wise unsigned lexicographic comparison of the
last eight bytes. -/
theorem c1_min_max_counter_order (x : UUID) (n : Int) (h0 : 0 ≤ n)
    (hn : n ≤ 0x3FFFFFFFFFFFFFFF) :
    (lexLt (((x.SetMinCounter).MarshalSortableBinary).drop 8)
        ((((x.SetCounter n).1).MarshalSortableBinary).drop 8) = true ↔ 0 < n) ∧
    ((((x.SetMinCounter).MarshalSortableBinary).drop 8 =
        (((x.SetCounter n).1).MarshalSortableBinary).drop 8) ↔ n = 0) ∧
    lexLt ((((x.SetCounter n).1).MarshalSortableBinary).drop 8)
      (((x.SetMaxCounter).MarshalSortableBinary).drop 8) = true := by
  rw [setCounter_toNat x n h0 (by omega)]
  rw [marshalSortable_drop8, marshalSortable_drop8, marshalSortable_drop8,
    setCounterUnsigned_flip]
  have hne : n.toNat % 2 ^ 62 = n.toNat := Nat.mod_eq_of_lt (by omega)
  rw [hne, counterKey _ (by omega)]
  have hminv : (x.SetMinCounter).leastSigBits ^^^ FlipSignedBits = 2 ^ 63 := by
    show (MinCounterLeastBits ||| IETFVariant) ^^^ FlipSignedBits = 2 ^ 63
    decide
  have hmaxv : (x.SetMaxCounter).leastSigBits ^^^ FlipSignedBits = 2 ^ 64 - 1 := by
    show (MaxCounterLeastBits ||| IETFVariant) ^^^ FlipSignedBits = 2 ^ 64 - 1
    decide
  rw [hminv, hmaxv]
  refine ⟨?_, ?_, ?_⟩
  · rw [lexLt_be64 _ _ (by norm_num) (by omega)]
    omega
  · rw [be64_inj _ _ (by norm_num) (by omega)]
    omega
  · rw [lexLt_be64 _ _ (by omega) (by norm_num)]
    omega

/-- Witness for the amended C1 at the zero identifier and n = 5. -/
theorem c1_witness :
    lexLt ((((ZeroUUID.SetCounter 5).1).MarshalSortableBinary).drop 8)
      (((ZeroUUID.SetMaxCounter).MarshalSortableBinary).drop 8) = true :=
  (c1_min_max_counter_order ZeroUUID 5 (by norm_num) (by norm_num)).2.2

/-- Claim C2: for counters c1 < c2 in [0, 0x3FFFFFFFFFFFFFFF] applied to the
same identifier (equal timestamps and version), the 16-byte sortable
encodings are strictly ordered byte-wise lexicographically. -/
theorem c2_counter_sortable_monotone (x : UUID) (c1 c2 : Int) (h0 : 0 ≤ c1)
    (h12 : c1 < c2) (h2 : c2 ≤ 0x3FFFFFFFFFFFFFFF) :
    lexLt (((x.SetCounter c1).1).MarshalSortableBinary)
      (((x.SetCounter c2).1).MarshalSortableBinary) = true := by
  rw [setCounter_toNat x c1 h0 (by omega), setCounter_toNat x c2 (by omega) (by omega),
    marshal_setCounterUnsigned, marshal_setCounterUnsigned,
    lexLt_append, lexLt_append, lexLt_append]
  rw [Nat.mod_eq_of_lt (show c1.toNat < 2 ^ 62 by omega),
    Nat.mod_eq_of_lt (show c2.toNat < 2 ^ 62 by omega),
    counterKey _ (by omega), counterKey _ (by omega),
    lexLt_be64 _ _ (by omega) (by omega)]
  omega

/-- Witness for C2 at the zero identifier with counters 3 < 7. -/
theorem c2_witness :
    lexLt (((ZeroUUID.SetCounter 3).1).MarshalSortableBinary)
      (((ZeroUUID.SetCounter 7).1).MarshalSortableBinary) = true :=
  c2_counter_sortable_monotone ZeroUUID 3 7 (by norm_num) (by norm_num) (by norm_num)

/-- The hex decoder always fills exactly the requested number of bytes. -/
theorem hexDecodeZeroFill_length (src : List Nat) (n : Nat) :
    (hexDecodeZeroFill src n).length = n := by
  induction n generalizing src with
  | zero =>
    rcases src with _ | ⟨a, _ | ⟨b, rest⟩⟩ <;> simp [hexDecodeZeroFill]
  | succ n ih =>
    rcases src with _ | ⟨a, _ | ⟨b, rest⟩⟩
    · simp [hexDecodeZeroFill]
    · simp [hexDecodeZeroFill]
    · rw [hexDecodeZeroFill]
      rcases fromHexChar a with _ | xa <;> rcases fromHexChar b with _ | xb <;>
        simp [ih]

/-- A failed `ParseBytes` always returns the zero identifier. -/
theorem parseBytes_error_zero (src : List Nat) (h : (ParseBytes src).2 ≠ none) :
    (ParseBytes src).1 = ZeroUUID := by
  induction src using ParseBytes.induct with
  | case1 src h36 hbad => rw [ParseBytes.eq_def, dif_pos h36, if_pos hbad]
  | case2 src h36 hok ih =>
    rw [ParseBytes.eq_def, dif_pos h36, if_neg hok] at h ⊢
    exact ih h
  | case3 src h36 h45 hbad =>
    rw [ParseBytes.eq_def, dif_neg h36, dif_pos h45, if_pos hbad]
  | case4 src h36 h45 hok ih =>
    rw [ParseBytes.eq_def, dif_neg h36, dif_pos h45, if_neg hok] at h ⊢
    exact ih h
  | case5 src h36 h45 h38 ih =>
    rw [ParseBytes.eq_def, dif_neg h36, dif_neg h45, dif_pos h38] at h ⊢
    exact ih h
  | case6 src h36 h45 h38 h32 =>
    rw [ParseBytes.eq_def, dif_neg h36, dif_neg h45, dif_neg h38, dif_pos h32] at h
    unfold UUID.UnmarshalBinary at h
    rw [if_neg (by rw [hexDecodeZeroFill_length]; omega)] at h
    simp at h
  | case7 src h36 h45 h38 h32 =>
    rw [ParseBytes.eq_def, dif_neg h36, dif_neg h45, dif_neg h38, dif_neg h32]

/-- Counterexample to C5 as stated: a failed `UnmarshalText` does not leave
the target unchanged — it overwrites a non-zero target with the zero
identifier. -/
theorem c5_counterexample :
    ((UUID.mk 1 1).UnmarshalText []).2 ≠ none ∧
    ((UUID.mk 1 1).UnmarshalText []).1 ≠ UUID.mk 1 1 := by
  have h : ParseBytes [] = (ZeroUUID, some (GoError.invalidUUIDLength [])) := by
    rw [ParseBytes.eq_def, dif_neg (by simp), dif_neg (by simp), dif_neg (by simp),
      dif_neg (by simp)]
  constructor
  · show (ParseBytes []).2 ≠ none
    rw [h]
    simp
  · show (ParseBytes []).1 ≠ UUID.mk 1 1
    rw [h]
    simp [ZeroUUID]

/-- Claim C5 (amended): on failure, `UnmarshalBinary` and
`UnmarshalSortableBinary` leave the target identifier exactly as it was,
while `UnmarshalText` and `UnmarshalJSON` overwrite it with the zero
identifier (a JSON null is a success that leaves the target unchanged). -/
theorem c5_failure_mutation :
    (∀ (u : UUID) (data : List Nat), (u.UnmarshalBinary data).2 ≠ none →
      (u.UnmarshalBinary data).1 = u) ∧
    (∀ (u : UUID) (data : List Nat), (u.UnmarshalSortableBinary data).2 ≠ none →
      (u.UnmarshalSortableBinary data).1 = u) ∧
    (∀ (u : UUID) (data : List Nat), (u.UnmarshalText data).2 ≠ none →
      (u.UnmarshalText data).1 = ZeroUUID) ∧
    (∀ (u : UUID) (data : List Nat), (u.UnmarshalJSON data).2 ≠ none →
      (u.UnmarshalJSON data).1 = ZeroUUID) := by
  refine ⟨?_, ?_, ?_, ?_⟩
  · intro u data h
    unfold UUID.UnmarshalBinary at h ⊢
    by_cases hl : data.length < 16
    · rw [if_pos hl]
    · rw [if_neg hl] at h
      simp at h
  · intro u data h
    unfold UUID.UnmarshalSortableBinary at h ⊢
    by_cases hl : data.length < 16
    · rw [if_pos hl]
    · rw [if_neg hl] at h
      simp at h
  · intro u data h
    exact parseBytes_error_zero data h
  · intro u data h
    unfold UUID.UnmarshalJSON at h ⊢
    by_cases hn : data = jsonNullBytes
    · rw [if_pos hn] at h
      simp at h
    · rw [if_neg hn] at h ⊢
      exact parseBytes_error_zero data h

/-- Witness for the amended C5: a failing binary unmarshal leaves the target. -/
theorem c5_witness : (ZeroUUID.UnmarshalBinary []).1 = ZeroUUID :=
  c5_failure_mutation.1 ZeroUUID [] (by decide)

/-- Reading eight leading bytes as a big-endian word matches the fold
specification on the eight-byte prefix. -/
theorem beUint64_eq_beValue (data : List Nat) (h8 : 8 ≤ data.length)
    (hb : ∀ b ∈ data, b < 256) :
    beUint64 data = beValue (data.take 8) := by
  rcases data with _ | ⟨b0, _ | ⟨b1, _ | ⟨b2, _ | ⟨b3, _ | ⟨b4, _ | ⟨b5, _ | ⟨b6, _ |
    ⟨b7, rest⟩⟩⟩⟩⟩⟩⟩⟩
  · simp at h8
  · simp at h8
  · simp at h8
  · simp at h8
  · simp at h8
  · simp at h8
  · simp at h8
  · simp at h8
  · show b0 <<< 56 ||| b1 <<< 48 ||| b2 <<< 40 ||| b3 <<< 32 ||| b4 <<< 24 |||
      b5 <<< 16 ||| b6 <<< 8 ||| b7 = _
    rw [byteChain8 _ _ _ _ _ _ _ _ (hb b1 (by simp)) (hb b2 (by simp)) (hb b3 (by simp))
      (hb b4 (by simp)) (hb b5 (by simp)) (hb b6 (by simp)) (hb b7 (by simp))]
    simp only [List.take_succ_cons, List.take_zero, beValue, List.foldl_cons,
      List.foldl_nil]
    ring

/-- Counterexample to C6 as stated: a 17-byte input does not fail — the
unmarshal succeeds using the first 16 bytes. -/
theorem c6_counterexample :
    (ZeroUUID.UnmarshalBinary (List.replicate 17 0)).2 = none := by
  decide

/-- Claim C6 (amended): `UnmarshalBinary` fails with the length error, leaving
the target unchanged, exactly when fewer than 16 bytes are supplied; on any
input of at least 16 bytes it succeeds with no field validation, setting the
high word to the big-endian value of bytes 0..7 and the low word to the
big-endian value of bytes 8..15. -/
theorem c6_unmarshalBinary_length (u : UUID) (data : List Nat)
    (hb : ∀ b ∈ data, b < 256) :
    (data.length < 16 → u.UnmarshalBinary data = (u, some GoError.errorWrongLen)) ∧
    (16 ≤ data.length →
      (u.UnmarshalBinary data).2 = none ∧
      (u.UnmarshalBinary data).1.mostSigBits = beValue (data.take 8) ∧
      (u.UnmarshalBinary data).1.leastSigBits = beValue ((data.drop 8).take 8)) := by
  constructor
  · intro hl
    unfold UUID.UnmarshalBinary
    rw [if_pos hl]
  · intro hl
    unfold UUID.UnmarshalBinary
    rw [if_neg (by omega)]
    refine ⟨rfl, ?_, ?_⟩
    · exact beUint64_eq_beValue data (by omega) hb
    · exact beUint64_eq_beValue (data.drop 8) (by simp; omega)
        (fun b hbm => hb b (List.mem_of_mem_drop hbm))

/-- Witness for the amended C6 on a concrete 16-byte input. -/
theorem c6_witness : (ZeroUUID.UnmarshalBinary (List.replicate 16 1)).2 = none :=
  ((c6_unmarshalBinary_length ZeroUUID (List.replicate 16 1) (by decide)).2
    (by decide)).1

/-- Claim C7 evaluated at the failing input: thirty-two bytes of the non-hex
character z parse with no error at all — `ParseBytes` silently returns the
zero identifier because the `hex.Decode` error is discarded, where the
specification requires a format error. -/
theorem c7_nonhex_no_error :
    ParseBytes (List.replicate 32 122) = (ZeroUUID, none) := by
  rw [ParseBytes.eq_def, dif_neg (by simp), dif_neg (by simp), dif_neg (by simp),
    dif_pos (by simp)]
  decide

/-- Claim C10: for every 38-byte input whose middle 36 bytes form a
well-formed hyphenated UUID, parsing strips the enclosing pair without
inspecting it, succeeds, and yields exactly the result of parsing the middle
36 bytes. -/
theorem c10_wrapper_stripped (s : List Nat) (hlen : s.length = 38)
    (hwf : isWellFormed36 ((s.drop 1).take 36) = true) :
    ParseBytes s = ParseBytes ((s.drop 1).take 36) ∧ (ParseBytes s).2 = none := by
  have hstep : ParseBytes s = ParseBytes ((s.drop 1).take 36) := by
    rw [ParseBytes.eq_def, dif_neg (by omega), dif_neg (by omega), dif_pos hlen]
  refine ⟨hstep, ?_⟩
  rw [hstep]
  have hl36 : ((s.drop 1).take 36).length = 36 := by
    simp [List.length_take, List.length_drop, hlen]
  simp only [isWellFormed36, Bool.and_eq_true, beq_iff_eq, List.all_eq_true] at hwf
  obtain ⟨⟨⟨⟨⟨_, h8⟩, h13⟩, h18⟩, h23⟩, _⟩ := hwf
  rw [ParseBytes.eq_def, dif_pos hl36, if_neg (by push_neg; exact ⟨h8, h13, h18, h23⟩)]
  rw [ParseBytes.eq_def]
  have hl32 : (((s.drop 1).take 36).take 8 ++ ((((s.drop 1).take 36).drop 9).take 4 ++
      ((((s.drop 1).take 36).drop 14).take 4 ++ ((((s.drop 1).take 36).drop 19).take 4 ++
        (((s.drop 1).take 36).drop 24).take 12)))).length = 32 := by
    simp only [List.length_append, List.length_take, List.length_drop, hl36]
    omega
  rw [dif_neg (by omega), dif_neg (by omega), dif_neg (by omega), dif_pos hl32]
  unfold UUID.UnmarshalBinary
  rw [if_neg (by rw [hexDecodeZeroFill_length]; omega)]

/-- Witness for C10 on the all-zero UUID text wrapped in parentheses. -/
theorem c10_witness : (ParseBytes sampleWrapped38).2 = none :=
  (c10_wrapper_stripped sampleWrapped38 (by decide) (by decide)).2

/-- Claim C8: for each of the five named categories, `NewUUID` yields that
version, the IETF variant, and zeroes everywhere outside the version nibble
of the high word and the two variant bits of the low word. -/
theorem c8_newUUID_categories :
    ((NewUUID Version.TimebasedUUID).Version = Version.TimebasedUUID ∧
      (NewUUID Version.TimebasedUUID).Variant = Variant.IETF ∧
      (NewUUID Version.TimebasedUUID).mostSigBits &&& 0xFFFFFFFFFFFF0FFF = 0 ∧
      (NewUUID Version.TimebasedUUID).leastSigBits &&& 0x3FFFFFFFFFFFFFFF = 0) ∧
    ((NewUUID Version.DCESecurityUUID).Version = Version.DCESecurityUUID ∧
      (NewUUID Version.DCESecurityUUID).Variant = Variant.IETF ∧
      (NewUUID Version.DCESecurityUUID).mostSigBits &&& 0xFFFFFFFFFFFF0FFF = 0 ∧
      (NewUUID Version.DCESecurityUUID).leastSigBits &&& 0x3FFFFFFFFFFFFFFF = 0) ∧
    ((NewUUID Version.MD5NamebasedUUID).Version = Version.MD5NamebasedUUID ∧
      (NewUUID Version.MD5NamebasedUUID).Variant = Variant.IETF ∧
      (NewUUID Version.MD5NamebasedUUID).mostSigBits &&& 0xFFFFFFFFFFFF0FFF = 0 ∧
      (NewUUID Version.MD5NamebasedUUID).leastSigBits &&& 0x3FFFFFFFFFFFFFFF = 0) ∧
    ((NewUUID Version.RandomlyGeneratedUUID).Version = Version.RandomlyGeneratedUUID ∧
      (NewUUID Version.RandomlyGeneratedUUID).Variant = Variant.IETF ∧
      (NewUUID Version.RandomlyGeneratedUUID).mostSigBits &&& 0xFFFFFFFFFFFF0FFF = 0 ∧
      (NewUUID Version.RandomlyGeneratedUUID).leastSigBits &&& 0x3FFFFFFFFFFFFFFF = 0) ∧
    ((NewUUID Version.SHA1NamebasedUUID).Version = Version.SHA1NamebasedUUID ∧
      (NewUUID Version.SHA1NamebasedUUID).Variant = Variant.IETF ∧
      (NewUUID Version.SHA1NamebasedUUID).mostSigBits &&& 0xFFFFFFFFFFFF0FFF = 0 ∧
      (NewUUID Version.SHA1NamebasedUUID).leastSigBits &&& 0x3FFFFFFFFFFFFFFF = 0) := by
  decide

end Timeuuid
